import Mathlib

/-!
Verification of the runtime type-validation core ("TypeSentry") of the
repository, a shallow embedding of `src/unnamed/part_000`.

Modelling conventions:
- JavaScript numbers are modelled by `JSNum` (NaN, the two infinities, and a
  finite rational); `===` on NaN is false, `<`/`<=`/`>` involving NaN are false.
- JavaScript values are modelled by `Value`.  Plain objects are finite lists of
  own enumerable string-keyed properties; property presence on a candidate
  object (`in` on the candidate, `Object.entries`) sees its own properties,
  while the `in` operator applied to a struct declaration record — what the
  exact-mode key check consults — is modelled with the record's prototype
  chain, i.e. including the `Object.prototype` member names.  Symbol
  descriptions are not modelled.
- Descriptor trees are the mutual inductive family `TypeModel` / `ModelList` /
  `FieldList`.  Each anonymous-subclass refinement of the source becomes a
  tagged constructor holding the wrapped base descriptor, as the spec's design
  notes prescribe.
- `RegExp` objects are modelled by `JSRegExp` with their mutable `lastIndex`
  made explicit; the matcher models literal (metacharacter-free) sources as
  substring search; of the flags only `global` (the one that makes `test`
  stateful) is modelled.
- The string coercion `cast`'s message template applies to the rejected value
  follows ECMAScript ToString on its throwing boundary: symbols throw a bare
  TypeError, arrays join their elements recursively (propagating a throw);
  function source text and custom user `toString` methods are not modelled.
  No claim inspects successful message text.
-/

/-- Model of a JavaScript `number`: NaN, the infinities, or a finite value
(modelled as a rational). -/
inductive JSNum where
  | nan
  | posInf
  | negInf
  | fin (q : ℚ)
deriving DecidableEq

/-- JavaScript `<=`: any comparison involving NaN is false. -/
def JSNum.jsLe : JSNum → JSNum → Bool
  | .nan, _ => false
  | _, .nan => false
  | .negInf, _ => true
  | _, .posInf => true
  | .posInf, _ => false
  | .fin _, .negInf => false
  | .fin a, .fin b => decide (a ≤ b)

/-- JavaScript `<`: any comparison involving NaN is false. -/
def JSNum.jsLt : JSNum → JSNum → Bool
  | .nan, _ => false
  | _, .nan => false
  | _, .negInf => false
  | .negInf, _ => true
  | .posInf, _ => false
  | _, .posInf => true
  | .fin a, .fin b => decide (a < b)

/-- JavaScript `>`. -/
def JSNum.jsGt (a b : JSNum) : Bool := JSNum.jsLt b a

/-- `Number.isNaN`. -/
def JSNum.isNaN : JSNum → Bool
  | .nan => true
  | _ => false

/-- `Number.isInteger`. -/
def JSNum.isInt : JSNum → Bool
  | .fin q => q.den == 1
  | _ => false

/-- JavaScript strict equality `===` restricted to numbers: false whenever
either side is NaN. -/
def JSNum.strictEq : JSNum → JSNum → Bool
  | .nan, _ => false
  | _, .nan => false
  | .posInf, .posInf => true
  | .negInf, .negInf => true
  | .fin a, .fin b => decide (a = b)
  | _, _ => false

/-- SameValueZero on numbers (the semantics of `Array.prototype.includes`):
like `===` except that NaN equals NaN. -/
def JSNum.svz : JSNum → JSNum → Bool
  | .nan, .nan => true
  | .posInf, .posInf => true
  | .negInf, .negInf => true
  | .fin a, .fin b => decide (a = b)
  | _, _ => false

/-- Simplified decimal rendering of a number for diagnostic messages. -/
def JSNum.render : JSNum → String
  | .nan => "NaN"
  | .posInf => "Infinity"
  | .negInf => "-Infinity"
  | .fin q => if q.den == 1 then toString q.num else toString q.num ++ "/" ++ toString q.den

/-- Model of a JavaScript runtime value.  Objects carry their own enumerable
string-keyed properties; `instV` stands for an instance of user classes whose
constructor tags are listed along its prototype chain. -/
inductive Value where
  | boolV (b : Bool)
  | numV (n : JSNum)
  | strV (s : String)
  | bigintV (i : Int)
  | symV (id : Nat)
  | nullV
  | undefV
  | objV (props : List (String × Value))
  | arrV (elems : List Value)
  | mapV (entries : List (Value × Value))
  | setV (elems : List Value)
  | funcV (id : Nat)
  | instV (classes : List Nat)

/-- JavaScript `typeof`. -/
def Value.typeofStr : Value → String
  | .boolV _ => "boolean"
  | .numV _ => "number"
  | .strV _ => "string"
  | .bigintV _ => "bigint"
  | .symV _ => "symbol"
  | .undefV => "undefined"
  | .nullV => "object"
  | .objV _ => "object"
  | .arrV _ => "object"
  | .mapV _ => "object"
  | .setV _ => "object"
  | .instV _ => "object"
  | .funcV _ => "function"

/-- `x === null`. -/
def Value.isNull : Value → Bool
  | .nullV => true
  | _ => false

/-- `x === undefined`. -/
def Value.isUndef : Value → Bool
  | .undefV => true
  | _ => false

/-- `Number.isNaN(x)` on an arbitrary value. -/
def Value.isNaNNum : Value → Bool
  | .numV .nan => true
  | _ => false

/-- `Number.isInteger(x)` on an arbitrary value. -/
def Value.isIntegerNum : Value → Bool
  | .numV n => n.isInt
  | _ => false

/-- The `in` operator (own enumerable properties; prototype chain not
modelled).  Arrays expose their index keys and `length`. -/
def Value.hasProp : Value → String → Bool
  | .objV props, k => props.any (fun p => p.1 == k)
  | .arrV vs, k => k == "length" || (List.range vs.length).any (fun i => toString i == k)
  | _, _ => false

/-- Property read `x[key]` (absent keys read as `undefined`). -/
def Value.getProp : Value → String → Value
  | .objV props, k => ((props.find? (fun p => p.1 == k)).map Prod.snd).getD .undefV
  | .arrV vs, k =>
      if k == "length" then .numV (.fin vs.length)
      else (((vs.enum).find? (fun p => toString p.1 == k)).map Prod.snd).getD .undefV
  | _, _ => .undefV

/-- `Object.entries(x)`: the own enumerable string-keyed properties. -/
def Value.jsEntries : Value → List (String × Value)
  | .objV props => props
  | .arrV vs => vs.enum.map (fun p => (toString p.1, p.2))
  | _ => []

/-- `Object.keys(x)`. -/
def Value.jsKeys (v : Value) : List String := v.jsEntries.map Prod.fst

/-- Model of a JavaScript `RegExp` object: the pattern source, the `global`
flag, and the mutable `lastIndex` slot.  Only literal (metacharacter-free)
sources are modelled, matched by substring search; `global` is the flag that
makes `RegExp.prototype.test` stateful. -/
structure JSRegExp where
  source : String
  global : Bool
  lastIndex : Nat
deriving DecidableEq

/-- `new RegExp(pattern)`: copies source and flags, resets `lastIndex` to 0. -/
def JSRegExp.fresh (r : JSRegExp) : JSRegExp := ⟨r.source, r.global, 0⟩

/-- Whether `pat` occurs at the head of `s`. -/
def charsStartWith : List Char → List Char → Bool
  | [], _ => true
  | _ :: _, [] => false
  | a :: as, b :: bs => a == b && charsStartWith as bs

/-- First match of `pat` in `s` at a position `≥ i`; returns the index one
past the end of the match. -/
def findMatchEnd (pat s : List Char) (i : Nat) : Option Nat :=
  (((List.range (s.length + 1)).drop i).find? (fun j => charsStartWith pat (s.drop j))).map
    (fun j => j + pat.length)

/-- `RegExp.prototype.test`, with its ECMAScript statefulness: a `global`
regexp starts searching at `lastIndex` and updates it; a non-global one always
searches from 0 and leaves `lastIndex` alone. -/
def JSRegExp.testStateful (r : JSRegExp) (s : String) : Bool × JSRegExp :=
  let start := if r.global then r.lastIndex else 0
  match findMatchEnd r.source.toList s.toList start with
  | some e => (true, if r.global then ⟨r.source, r.global, e⟩ else r)
  | none => (false, if r.global then ⟨r.source, r.global, 0⟩ else r)

/-- The primitive values a `LiteralModel` may store (boolean, number, bigint,
string, symbol). -/
inductive PrimLit where
  | pb (b : Bool)
  | pn (n : JSNum)
  | ps (s : String)
  | pbig (i : Int)
  | psym (id : Nat)

/-- Strict equality `x === literal` between an arbitrary value and a stored
literal. -/
def strictEqLit : Value → PrimLit → Bool
  | .boolV a, .pb c => a == c
  | .numV a, .pn c => JSNum.strictEq a c
  | .strV a, .ps c => a == c
  | .bigintV a, .pbig c => a == c
  | .symV a, .psym c => a == c
  | _, _ => false

/-- A member value of an enum-like declaration (string or number). -/
inductive EnumVal where
  | evs (s : String)
  | evn (n : JSNum)

/-- `Array.prototype.includes` comparison (SameValueZero) between an enum
member value and a candidate. -/
def enumValMatches : EnumVal → Value → Bool
  | .evs s, .strV t => s == t
  | .evn a, .numV b => JSNum.svz a b
  | _, _ => false

mutual
/-- Tagged-variant embedding of the `TypeModel` class hierarchy.  Each
anonymous-subclass refinement (`nonNaN`, `int`, `withLength`, `withPattern`)
becomes a constructor holding the wrapped base descriptor (`that` in the
source) and the captured configuration.  `structOf` carries the `exact` mode
as a flag; `strPattern` carries the captured `RegExp` fields including its
mutable `lastIndex`. -/
inductive TypeModel where
  | boolean
  | number
  | bigint
  | string
  | null
  | undefined
  | voidT
  | symbol
  | any
  | never
  | unknown
  | function
  | nonNaN (base : TypeModel)
  | int (base : TypeModel)
  | strLen (base : TypeModel) (min max : JSNum)
  | strPattern (base : TypeModel) (source : String) (global : Bool) (lastIndex : Nat)
  | arrayOf (elem : TypeModel)
  | arrLen (base : TypeModel) (min max : JSNum)
  | tupleOf (elems : ModelList)
  | recordOf (key value : TypeModel)
  | structOf (fields : FieldList) (isExact : Bool)
  | optionalOf (inner : TypeModel)
  | mapOf (key value : TypeModel)
  | setOf (elem : TypeModel)
  | unionOf (types : ModelList)
  | intersectionOf (types : ModelList)
  | nullableOf (inner : TypeModel)
  | undefindableOf (inner : TypeModel)
  | literalOf (value : PrimLit)
  | enumLikeOf (enumeration : List (String × EnumVal))
  | classOf (tag : Nat)
  | functionOf (args : ModelList) (ret : TypeModel)

/-- A list of descriptors (members of a union/intersection, tuple elements,
function arguments). -/
inductive ModelList where
  | mnil
  | mcons (head : TypeModel) (tail : ModelList)

/-- The ordered field declarations of a struct descriptor. -/
inductive FieldList where
  | fnil
  | fcons (key : String) (model : TypeModel) (tail : FieldList)
end

/-- Number of declared tuple elements. -/
def ModelList.length : ModelList → Nat
  | .mnil => 0
  | .mcons _ ts => ts.length + 1

/-- The declared key set: the own keys of the struct declaration record. -/
def FieldList.hasKey : FieldList → String → Bool
  | .fnil, _ => false
  | .fcons k _ rest, key => k == key || rest.hasKey key

/-- The property names of `Object.prototype`.  A struct declaration record is
a plain object literal, so its prototype chain is exactly `Object.prototype`,
and the `in` operator finds these names on every such record. -/
def objectProtoKeys : List String :=
  ["constructor", "hasOwnProperty", "isPrototypeOf", "propertyIsEnumerable",
   "toLocaleString", "toString", "valueOf", "__proto__", "__defineGetter__",
   "__defineSetter__", "__lookupGetter__", "__lookupSetter__"]

/-- `key in that.object` as the source's exact-mode loop evaluates it: the
`in` operator traverses the prototype chain, so it is true for a declared
field key and also for every `Object.prototype` member name. -/
def FieldList.jsInDecl (fs : FieldList) (k : String) : Bool :=
  fs.hasKey k || objectProtoKeys.any (fun p => p == k)

/-- The declarations as a plain list, for stating specifications. -/
def FieldList.toList : FieldList → List (String × TypeModel)
  | .fnil => []
  | .fcons k t rest => (k, t) :: rest.toList

/-- `model instanceof NeoOptionalModel`. -/
def TypeModel.isOptionalMarker : TypeModel → Bool
  | .optionalOf _ => true
  | _ => false

/-- `x instanceof C` for class descriptors; `Map` and `Set` carry the fixed
constructor tags 0 and 1. -/
def jsInstanceOf (tag : Nat) : Value → Bool
  | .mapV _ => tag == 0
  | .setV _ => tag == 1
  | .instV classes => classes.any (fun c => c == tag)
  | _ => false

mutual
/-- `TypeModel.test` and the `test` overrides of every concrete descriptor
class of the source, by cases on the descriptor. -/
def TypeModel.test : TypeModel → Value → Bool
  | .boolean, v => v.typeofStr == "boolean"
  | .number, v => v.typeofStr == "number"
  | .bigint, v => v.typeofStr == "bigint"
  | .string, v => v.typeofStr == "string"
  | .null, v => v.isNull
  | .undefined, v => v.isUndef
  | .voidT, v => v.isUndef
  | .symbol, v => v.typeofStr == "symbol"
  | .any, _ => true
  | .never, _ => false
  | .unknown, _ => true
  | .function, v => v.typeofStr == "function"
  | .nonNaN base, v => base.test v && !v.isNaNNum
  | .int base, v => base.test v && v.isIntegerNum
  | .strLen base mn mx, v =>
      base.test v &&
        (match v with
          | .strV s => mn.jsLe (.fin s.length) && (JSNum.fin s.length).jsLe mx
          | _ => false)
  | .strPattern base src g li, v =>
      base.test v &&
        (match v with
          | .strV s => (JSRegExp.fresh ⟨src, g, li⟩).testStateful s |>.fst
          | _ => false)
  | .arrayOf elem, v =>
      match v with
      | .arrV vs => vs.all (fun e => elem.test e)
      | _ => false
  | .arrLen base mn mx, v =>
      base.test v &&
        (match v with
          | .arrV vs => mn.jsLe (.fin vs.length) && (JSNum.fin vs.length).jsLe mx
          | _ => false)
  | .tupleOf ts, v =>
      match v with
      | .arrV vs => if vs.length == ts.length then TypeModel.testTuple ts vs else false
      | _ => false
  | .recordOf kM vM, v =>
      if v.typeofStr == "object" && !v.isNull then
        v.jsEntries.all (fun p => kM.test (.strV p.1) && vM.test p.2)
      else false
  | .structOf fields ex, v =>
      (if v.typeofStr == "object" && !v.isNull then TypeModel.structFieldsTest fields v
       else false)
        && (!ex || v.jsKeys.all (fun k => fields.jsInDecl k))
  | .optionalOf inner, v => inner.test v
  | .mapOf kM vM, v =>
      match v with
      | .mapV es => es.all (fun p => kM.test p.1 && vM.test p.2)
      | _ => false
  | .setOf eM, v =>
      match v with
      | .setV vs => vs.all (fun e => eM.test e)
      | _ => false
  | .unionOf ts, v => TypeModel.testAny ts v
  | .intersectionOf ts, v => TypeModel.testAny ts v
  | .nullableOf inner, v => inner.test v || v.isNull
  | .undefindableOf inner, v => inner.test v || v.isUndef
  | .literalOf lv, v => strictEqLit v lv
  | .enumLikeOf enumeration, v =>
      (v.typeofStr == "string" || v.typeofStr == "number")
        && enumeration.any (fun e => enumValMatches e.2 v)
  | .classOf tag, v => jsInstanceOf tag v
  | .functionOf _ _, v => v.typeofStr == "function"

/-- `types.some(type => type.test(x))` — the member loop shared (in the
source) by `UnionModel.test` and `IntersectionModel.test`. -/
def TypeModel.testAny : ModelList → Value → Bool
  | .mnil, _ => false
  | .mcons t ts, v => t.test v || TypeModel.testAny ts v

/-- The index-wise element loop of `TupleModel.test` (the arity equality is
checked before this loop runs). -/
def TypeModel.testTuple : ModelList → List Value → Bool
  | .mnil, _ => true
  | .mcons t ts, vs =>
      match vs with
      | [] => false
      | e :: rest => t.test e && TypeModel.testTuple ts rest

/-- The declared-field loop of `NeoObjectModel.test`: a present key must
satisfy its model, an absent key must be declared optional. -/
def TypeModel.structFieldsTest : FieldList → Value → Bool
  | .fnil, _ => true
  | .fcons k t rest, x =>
      if x.hasProp k then t.test (x.getProp k) && TypeModel.structFieldsTest rest x
      else if t.isOptionalMarker then TypeModel.structFieldsTest rest x
      else false
end

/-- Quoting of a struct field key in `toString`: a key containing `:` is
wrapped in quotes, otherwise embedded quotes are escaped. -/
def renderKey (k : String) : String :=
  if k.contains ':' then "\"" ++ k ++ "\""
  else if k.contains '"' then k.replace "\"" "\\\""
  else k

/-- `LiteralModel.toString`: the stored primitive rendered per its runtime
kind (symbol descriptions are not modelled). -/
def PrimLit.render : PrimLit → String
  | .pb b => if b then "true" else "false"
  | .pn n => n.render
  | .ps s => "\"" ++ s.replace "\"" "\\\"" ++ "\""
  | .pbig i => toString i ++ "n"
  | .psym _ => "symbol()"

/-- One `k=v` item of `EnumLikeModel.toString`. -/
def renderEnumEntry (e : String × EnumVal) : String :=
  e.1 ++ "=" ++ (match e.2 with
    | .evs s => s
    | .evn n => n.render)

/-- The comma-joined items of `EnumLikeModel.toString`. -/
def renderEnumEntries : List (String × EnumVal) → String
  | [] => ""
  | [e] => renderEnumEntry e
  | e :: rest => renderEnumEntry e ++ ", " ++ renderEnumEntries rest

mutual
/-- The `toString` overrides of every descriptor class.  The
anonymous-subclass refinements do not override `toString`, so they inherit
the base class's rendering over the same fields, which equals the wrapped
base descriptor's rendering.  Class descriptors render their constructor tag
(constructor names are not modelled). -/
def TypeModel.toStr : TypeModel → String
  | .boolean => "boolean"
  | .number => "number"
  | .bigint => "bigint"
  | .string => "string"
  | .null => "null"
  | .undefined => "undefined"
  | .voidT => "void"
  | .symbol => "symbol"
  | .any => "any"
  | .never => "never"
  | .unknown => "unknown"
  | .function => "function"
  | .nonNaN base => base.toStr
  | .int base => base.toStr
  | .strLen base _ _ => base.toStr
  | .strPattern base _ _ _ => base.toStr
  | .arrayOf elem => elem.toStr ++ "[]"
  | .arrLen base _ _ => base.toStr
  | .tupleOf ts => "[" ++ ModelList.joinStr ", " ts ++ "]"
  | .recordOf kM vM => "Record<" ++ kM.toStr ++ ", " ++ vM.toStr ++ ">"
  | .structOf fields _ => "\x7b" ++ fields.joinStr ++ "\x7d"
  | .optionalOf inner => inner.toStr
  | .mapOf kM vM => "Map<" ++ kM.toStr ++ ", " ++ vM.toStr ++ ">"
  | .setOf eM => "Set<" ++ eM.toStr ++ ">"
  | .unionOf ts => ModelList.joinStr " | " ts
  | .intersectionOf ts => ModelList.joinStr " & " ts
  | .nullableOf inner => inner.toStr ++ " | null"
  | .undefindableOf inner => inner.toStr ++ " | undefined"
  | .literalOf lv => lv.render
  | .enumLikeOf enumeration => "Enum \x7b " ++ renderEnumEntries enumeration ++ " \x7d"
  | .classOf tag => "class#" ++ toString tag
  | .functionOf args ret => "(" ++ ModelList.joinStr ", " args ++ ") => " ++ ret.toStr

/-- Separator-joined renderings of a descriptor list. -/
def ModelList.joinStr : String → ModelList → String
  | _, .mnil => ""
  | _, .mcons t .mnil => t.toStr
  | sep, .mcons t ts => t.toStr ++ sep ++ ModelList.joinStr sep ts

/-- The `; `-joined field renderings of `NeoObjectModel.toString`, with `?:`
marking optional fields. -/
def FieldList.joinStr : FieldList → String
  | .fnil => ""
  | .fcons k t .fnil =>
      renderKey k ++ (if t.isOptionalMarker then "?: " else ": ") ++ t.toStr
  | .fcons k t rest =>
      renderKey k ++ (if t.isOptionalMarker then "?: " else ": ") ++ t.toStr
        ++ "; " ++ rest.joinStr
end

mutual
/-- ECMAScript ToString as the template literal in `cast` invokes it on the
rejected value.  String coercion of a symbol throws a bare `TypeError`
(modelled as `none`); arrays coerce through `Array.prototype.join`, which
coerces each element recursively, so an array containing a symbol throws
too.  Plain objects, `Map`s and `Set`s render via `Object.prototype.toString`;
function source text and user classes with custom `toString` methods are not
modelled (rendered as fixed strings, never throwing). -/
def Value.jsToString : Value → Option String
  | .boolV b => some (if b then "true" else "false")
  | .numV n => some n.render
  | .strV s => some s
  | .bigintV i => some (toString i)
  | .symV _ => none
  | .nullV => some "null"
  | .undefV => some "undefined"
  | .objV _ => some "[object Object]"
  | .arrV vs => Value.arrJoin vs
  | .mapV _ => some "[object Map]"
  | .setV _ => some "[object Set]"
  | .funcV _ => some "function"
  | .instV _ => some "[object Object]"
termination_by v => (sizeOf v, 0)

/-- `Array.prototype.join` with the default `,` separator; a throwing element
coercion propagates. -/
def Value.arrJoin : List Value → Option String
  | [] => some ""
  | e :: rest =>
      match Value.elemToString e, Value.arrJoin rest with
      | some s, some r => some (if rest.isEmpty then s else s ++ "," ++ r)
      | _, _ => none
termination_by vs => (sizeOf vs, 0)

/-- One join element: `null` and `undefined` render as the empty string,
anything else is coerced by ToString. -/
def Value.elemToString : Value → Option String
  | .nullV => some ""
  | .undefV => some ""
  | v => v.jsToString
termination_by v => (sizeOf v, 1)
end

/-- The error type the library constructs (`TypeSentryError extends TypeError`). -/
structure TypeSentryError where
  message : String

/-- An error thrown by `cast`: either the `TypeSentryError` it constructs, or
the bare `TypeError` that the template literal's string coercion of the
rejected value throws before the `TypeSentryError` can be built. -/
inductive JSError where
  | sentryError (e : TypeSentryError)
  | typeError

/-- `TypeModel.cast`: return the input itself when `test` accepts it;
otherwise evaluate the failure message's template literal — which coerces the
rejected value first and therefore throws a bare `TypeError` when that
coercion throws — and throw the resulting `TypeSentryError`. -/
def TypeModel.cast (m : TypeModel) (x : Value) : Except JSError Value :=
  if m.test x then .ok x
  else
    match x.jsToString with
    | some s => .error (.sentryError ⟨"値のキャストに失敗しました: '" ++ s
        ++ "'の型は期待された型(" ++ m.toStr ++ ")に一致しません"⟩)
    | none => .error .typeError

/-- The `LengthRange` configuration interface: both bounds optional. -/
structure LengthRange where
  min : Option JSNum
  max : Option JSNum

/-- `StringModel.withLength`: default an absent min to 0 and an absent max to
Infinity, throw on an invalid range, otherwise build the refined descriptor. -/
def TypeModel.withLengthStr (base : TypeModel) (range : LengthRange) :
    Except TypeSentryError TypeModel :=
  let mn := range.min.getD (.fin 0)
  let mx := range.max.getD .posInf
  if mn.jsGt mx || mn.jsLt (.fin 0) then
    .error ⟨"無効な範囲です: " ++ mn.render ++ "～" ++ mx.render⟩
  else .ok (.strLen base mn mx)

/-- `ArrayModel.withLength`: same defaulting and validation as the string
variant, building the array-length refinement. -/
def TypeModel.withLengthArr (base : TypeModel) (range : LengthRange) :
    Except TypeSentryError TypeModel :=
  let mn := range.min.getD (.fin 0)
  let mx := range.max.getD .posInf
  if mn.jsGt mx || mn.jsLt (.fin 0) then
    .error ⟨"無効な範囲です: " ++ mn.render ++ "～" ++ mx.render⟩
  else .ok (.arrLen base mn mx)

/-- `NeoObjectModel.exact`: the runtime-checked variant that additionally
rejects undeclared keys (defined only on struct descriptors). -/
def TypeModel.exactOf : TypeModel → Option TypeModel
  | .structOf fields _ => some (.structOf fields true)
  | _ => none

/-- `NullableModel.unwrap`: the wrapped descriptor (defined only on nullable
descriptors). -/
def TypeModel.unwrapNullable : TypeModel → Option TypeModel
  | .nullableOf inner => some inner
  | _ => none

/-- `UndefindableModel.unwrap`: the wrapped descriptor (defined only on
undefinable descriptors). -/
def TypeModel.unwrapUndefindable : TypeModel → Option TypeModel
  | .undefindableOf inner => some inner
  | _ => none

mutual
/-- Erase the only mutable state a descriptor tree carries: the `lastIndex`
slots of captured `RegExp` objects. -/
def TypeModel.eraseLI : TypeModel → TypeModel
  | .boolean => .boolean
  | .number => .number
  | .bigint => .bigint
  | .string => .string
  | .null => .null
  | .undefined => .undefined
  | .voidT => .voidT
  | .symbol => .symbol
  | .any => .any
  | .never => .never
  | .unknown => .unknown
  | .function => .function
  | .nonNaN base => .nonNaN base.eraseLI
  | .int base => .int base.eraseLI
  | .strLen base mn mx => .strLen base.eraseLI mn mx
  | .strPattern base src g _ => .strPattern base.eraseLI src g 0
  | .arrayOf elem => .arrayOf elem.eraseLI
  | .arrLen base mn mx => .arrLen base.eraseLI mn mx
  | .tupleOf ts => .tupleOf ts.eraseLI
  | .recordOf kM vM => .recordOf kM.eraseLI vM.eraseLI
  | .structOf fields ex => .structOf fields.eraseLI ex
  | .optionalOf inner => .optionalOf inner.eraseLI
  | .mapOf kM vM => .mapOf kM.eraseLI vM.eraseLI
  | .setOf eM => .setOf eM.eraseLI
  | .unionOf ts => .unionOf ts.eraseLI
  | .intersectionOf ts => .intersectionOf ts.eraseLI
  | .nullableOf inner => .nullableOf inner.eraseLI
  | .undefindableOf inner => .undefindableOf inner.eraseLI
  | .literalOf lv => .literalOf lv
  | .enumLikeOf enumeration => .enumLikeOf enumeration
  | .classOf tag => .classOf tag
  | .functionOf args ret => .functionOf args.eraseLI ret.eraseLI

/-- `eraseLI` mapped over a descriptor list. -/
def ModelList.eraseLI : ModelList → ModelList
  | .mnil => .mnil
  | .mcons t ts => .mcons t.eraseLI ts.eraseLI

/-- `eraseLI` mapped over struct field declarations. -/
def FieldList.eraseLI : FieldList → FieldList
  | .fnil => .fnil
  | .fcons k t rest => .fcons k t.eraseLI rest.eraseLI
end

/-- Erasing regex state does not change which keys a struct declares. -/
def FieldList.hasKey_erase : ∀ (fs : FieldList) (k : String),
    fs.eraseLI.hasKey k = fs.hasKey k
  | .fnil, _ => rfl
  | .fcons key t rest, k => by
      simp [FieldList.eraseLI, FieldList.hasKey, FieldList.hasKey_erase rest k]

/-- Erasing regex state does not change the declaration record's `in`
behaviour. -/
def FieldList.jsInDecl_erase (fs : FieldList) (k : String) :
    fs.eraseLI.jsInDecl k = fs.jsInDecl k := by
  simp [FieldList.jsInDecl, FieldList.hasKey_erase fs k]

/-- Erasing regex state does not change a tuple descriptor's arity. -/
def ModelList.length_erase : ∀ (ts : ModelList), ts.eraseLI.length = ts.length
  | .mnil => rfl
  | .mcons t ts => by
      simp [ModelList.eraseLI, ModelList.length, ModelList.length_erase ts]

/-- Erasing regex state does not change whether a field is an optional
marker. -/
def TypeModel.isOptionalMarker_erase (t : TypeModel) :
    t.eraseLI.isOptionalMarker = t.isOptionalMarker := by
  cases t <;> rfl

mutual
/-- Validation is independent of the captured `RegExp` objects' `lastIndex`
state: the `test` of any descriptor equals the `test` of its state-erased
form, because `withPattern`'s test runs `new RegExp(pattern)` — a fresh copy
whose `lastIndex` starts at 0 — and discards it. -/
def TypeModel.test_erase : ∀ (m : TypeModel) (v : Value),
    m.eraseLI.test v = m.test v
  | .boolean, _ => rfl
  | .number, _ => rfl
  | .bigint, _ => rfl
  | .string, _ => rfl
  | .null, _ => rfl
  | .undefined, _ => rfl
  | .voidT, _ => rfl
  | .symbol, _ => rfl
  | .any, _ => rfl
  | .never, _ => rfl
  | .unknown, _ => rfl
  | .function, _ => rfl
  | .nonNaN base, v => by
      simp [TypeModel.eraseLI, TypeModel.test, TypeModel.test_erase base v]
  | .int base, v => by
      simp [TypeModel.eraseLI, TypeModel.test, TypeModel.test_erase base v]
  | .strLen base mn mx, v => by
      simp [TypeModel.eraseLI, TypeModel.test, TypeModel.test_erase base v]
  | .strPattern base src g li, v => by
      simp [TypeModel.eraseLI, TypeModel.test, TypeModel.test_erase base v, JSRegExp.fresh]
  | .arrayOf elem, v => by
      cases v <;> simp [TypeModel.eraseLI, TypeModel.test, TypeModel.test_erase elem]
  | .arrLen base mn mx, v => by
      simp [TypeModel.eraseLI, TypeModel.test, TypeModel.test_erase base v]
  | .tupleOf ts, v => by
      cases v <;>
        simp [TypeModel.eraseLI, TypeModel.test, ModelList.length_erase ts,
          TypeModel.testTuple_erase ts]
  | .recordOf kM vM, v => by
      simp [TypeModel.eraseLI, TypeModel.test, TypeModel.test_erase kM,
        TypeModel.test_erase vM]
  | .structOf fields ex, v => by
      simp [TypeModel.eraseLI, TypeModel.test, TypeModel.structFields_erase fields v,
        FieldList.jsInDecl_erase fields]
  | .optionalOf inner, v => by
      simp [TypeModel.eraseLI, TypeModel.test, TypeModel.test_erase inner v]
  | .mapOf kM vM, v => by
      cases v <;>
        simp [TypeModel.eraseLI, TypeModel.test, TypeModel.test_erase kM,
          TypeModel.test_erase vM]
  | .setOf eM, v => by
      cases v <;> simp [TypeModel.eraseLI, TypeModel.test, TypeModel.test_erase eM]
  | .unionOf ts, v => by
      simp [TypeModel.eraseLI, TypeModel.test, TypeModel.testAny_erase ts v]
  | .intersectionOf ts, v => by
      simp [TypeModel.eraseLI, TypeModel.test, TypeModel.testAny_erase ts v]
  | .nullableOf inner, v => by
      simp [TypeModel.eraseLI, TypeModel.test, TypeModel.test_erase inner v]
  | .undefindableOf inner, v => by
      simp [TypeModel.eraseLI, TypeModel.test, TypeModel.test_erase inner v]
  | .literalOf _, _ => rfl
  | .enumLikeOf _, _ => rfl
  | .classOf _, _ => rfl
  | .functionOf _ _, _ => rfl

/-- State erasure through the union/intersection member loop. -/
def TypeModel.testAny_erase : ∀ (ts : ModelList) (v : Value),
    TypeModel.testAny ts.eraseLI v = TypeModel.testAny ts v
  | .mnil, _ => rfl
  | .mcons t ts, v => by
      simp [ModelList.eraseLI, TypeModel.testAny, TypeModel.test_erase t v,
        TypeModel.testAny_erase ts v]

/-- State erasure through the tuple element loop. -/
def TypeModel.testTuple_erase : ∀ (ts : ModelList) (vs : List Value),
    TypeModel.testTuple ts.eraseLI vs = TypeModel.testTuple ts vs
  | .mnil, _ => rfl
  | .mcons t ts, vs => by
      cases vs with
      | nil => rfl
      | cons e rest =>
          simp [ModelList.eraseLI, TypeModel.testTuple, TypeModel.test_erase t e,
            TypeModel.testTuple_erase ts rest]

/-- State erasure through the struct field loop. -/
def TypeModel.structFields_erase : ∀ (fs : FieldList) (x : Value),
    TypeModel.structFieldsTest fs.eraseLI x = TypeModel.structFieldsTest fs x
  | .fnil, _ => rfl
  | .fcons k t rest, x => by
      simp [FieldList.eraseLI, TypeModel.structFieldsTest, TypeModel.test_erase t,
        TypeModel.isOptionalMarker_erase t, TypeModel.structFields_erase rest x]
end

/-- The extra predicate captured by the `StringModel.withLength` anonymous
subclass (the length-range closure). -/
def strLenPred (mn mx : JSNum) : Value → Bool
  | .strV s => mn.jsLe (.fin s.length) && (JSNum.fin s.length).jsLe mx
  | _ => false

/-- The extra predicate captured by the `StringModel.withPattern` anonymous
subclass (running a fresh copy of the captured regexp). -/
def strPatternPred (src : String) (g : Bool) (li : Nat) : Value → Bool
  | .strV s => ((JSRegExp.fresh ⟨src, g, li⟩).testStateful s).fst
  | _ => false

/-- The extra predicate captured by the `ArrayModel.withLength` anonymous
subclass. -/
def arrLenPred (mn mx : JSNum) : Value → Bool
  | .arrV vs => mn.jsLe (.fin vs.length) && (JSNum.fin vs.length).jsLe mx
  | _ => false

/-- The specification's wording of struct acceptance: for every declared
field, either the key is present and its value satisfies the field's model,
or the key is absent and the field is wrapped in the optional marker. -/
def SpecStructAccepts (fields : FieldList) (x : Value) : Prop :=
  ∀ p ∈ fields.toList,
    (x.hasProp p.1 = true ∧ p.2.test (x.getProp p.1) = true)
    ∨ (x.hasProp p.1 = false ∧ p.2.isOptionalMarker = true)

/-- The field loop of `NeoObjectModel.test` decides exactly the spec's
field condition. -/
def structFieldsTest_iff : ∀ (fs : FieldList) (x : Value),
    TypeModel.structFieldsTest fs x = true ↔ SpecStructAccepts fs x
  | .fnil, x => by
      simp [TypeModel.structFieldsTest, SpecStructAccepts, FieldList.toList]
  | .fcons k t rest, x => by
      have ih := structFieldsTest_iff rest x
      by_cases h : x.hasProp k = true
      · simp [TypeModel.structFieldsTest, SpecStructAccepts, FieldList.toList, h,
          Bool.and_eq_true, ih, SpecStructAccepts] at ih ⊢
      · have h' : x.hasProp k = false := by
          cases hh : x.hasProp k
          · rfl
          · exact absurd hh h
        by_cases ho : t.isOptionalMarker = true
        · simp [TypeModel.structFieldsTest, SpecStructAccepts, FieldList.toList, h', ho,
            ih, SpecStructAccepts] at ih ⊢
        · have ho' : t.isOptionalMarker = false := by
            cases hh : t.isOptionalMarker
            · rfl
            · exact absurd hh ho
          simp [TypeModel.structFieldsTest, SpecStructAccepts, FieldList.toList, h', ho',
            ih, SpecStructAccepts] at ih ⊢

/-- C1.  The claim states that `intersectionOf(A, B).test(v)` returns true
only if both `A.test(v)` and `B.test(v)` return true.  The code violates it:
`IntersectionModel.test` runs `this.types.some(type => type.test(x))` —
identical to `UnionModel.test` — so `intersectionOf(string, number)` accepts
`"x"` although the `number` member rejects it.  This theorem evaluates the
embedded code at that failing input. -/
theorem intersection_test_is_or_not_and :
    (TypeModel.intersectionOf (.mcons .string (.mcons .number .mnil))).test (.strV "x") = true
    ∧ TypeModel.string.test (.strV "x") = true
    ∧ TypeModel.number.test (.strV "x") = false := by
  refine ⟨by decide, by decide, by decide⟩

/-- C2 counterexample.  The claim as stated is false of the source: `cast`'s
failure branch renders the rejected value inside a template literal, and
ECMAScript string coercion of a symbol throws a bare `TypeError` before the
`TypeSentryError` (the TypeMismatch) is constructed — so
`sentry.number.cast(Symbol())` signals a plain TypeError, not TypeMismatch. -/
theorem cast_symbol_typeerror_counterexample :
    TypeModel.number.test (.symV 0) = false
    ∧ TypeModel.number.cast (.symV 0) = Except.error JSError.typeError := by
  refine ⟨rfl, ?_⟩
  simp [TypeModel.cast, show TypeModel.number.test (.symV 0) = false from rfl,
    Value.jsToString]

/-- C2 amended.  `cast` either returns exactly the input value — and does so
iff `test` accepts it — or throws; it never returns a transformed value.  On
failure it signals the TypeMismatch (`TypeSentryError`) exactly when the
rejected value's string coercion succeeds, and a bare `TypeError` exactly
when that coercion itself throws (symbols, or arrays containing one).
`test` is a total boolean function in this embedding — `cast` is the sole
throwing entry point. -/
theorem cast_identity_or_error_amended :
    ∀ (m : TypeModel) (v : Value),
      (m.cast v = Except.ok v ∨ ∃ e, m.cast v = Except.error e)
      ∧ (m.cast v = Except.ok v ↔ m.test v = true)
      ∧ (m.cast v = Except.error .typeError ↔ (m.test v = false ∧ v.jsToString = none))
      ∧ ((∃ te, m.cast v = Except.error (.sentryError te))
          ↔ (m.test v = false ∧ ∃ s, v.jsToString = some s)) := by
  intro m v
  by_cases h : m.test v = true
  · have hc : m.cast v = Except.ok v := by simp [TypeModel.cast, h]
    refine ⟨Or.inl hc, ?_, ?_, ?_⟩ <;> simp [hc, h]
  · have h' : m.test v = false := by
      cases hh : m.test v
      · rfl
      · exact absurd hh h
    cases hs : v.jsToString with
    | none =>
        have hc : m.cast v = Except.error .typeError := by
          simp [TypeModel.cast, h', hs]
        refine ⟨Or.inr ⟨_, hc⟩, ?_, ?_, ?_⟩ <;> simp [hc, h', hs]
    | some s =>
        have hc : m.cast v = Except.error (.sentryError
            ⟨"値のキャストに失敗しました: '" ++ s
              ++ "'の型は期待された型(" ++ m.toStr ++ ")に一致しません"⟩) := by
          simp [TypeModel.cast, h', hs]
        refine ⟨Or.inr ⟨_, hc⟩, ?_, ?_, ?_⟩ <;> simp [hc, h', hs]

/-- C7.  Validation is deterministic and free of observable state: the result
of `test` is a function of the descriptor with its captured `RegExp`
`lastIndex` state erased, so two descriptors equal up to that mutable state
(in particular: the same descriptor before and after any earlier calls)
always produce the same boolean.  This is because `withPattern`'s test runs
`new RegExp(pattern)` — a fresh copy starting at `lastIndex` 0 — and discards
it, never touching the captured object; nothing else in `test` reads or
writes mutable state. -/
theorem test_independent_of_regexp_state :
    ∀ (m1 m2 : TypeModel) (v : Value),
      m1.eraseLI = m2.eraseLI → m1.test v = m2.test v := by
  intro m1 m2 v h
  rw [← TypeModel.test_erase m1 v, h, TypeModel.test_erase m2 v]

/-- Witness for C7: a pattern descriptor whose captured regexp sits at
`lastIndex` 7 validates exactly as the pristine one. -/
theorem test_independent_of_regexp_state_witness :
    (TypeModel.strPattern .string "an" true 7).test (.strV "banana")
      = (TypeModel.strPattern .string "an" true 0).test (.strV "banana") :=
  test_independent_of_regexp_state (.strPattern .string "an" true 7)
    (.strPattern .string "an" true 0) (.strV "banana") rfl

/-- C8.  A literal descriptor built from NaN accepts nothing: its test is
strict equality `x === value` and `NaN === NaN` is false, so even NaN itself
is rejected. -/
theorem literal_nan_accepts_nothing :
    ∀ (v : Value), (TypeModel.literalOf (.pn .nan)).test v = false := by
  intro v
  cases v <;> simp [TypeModel.test, strictEqLit]
  rename_i n
  cases n <;> rfl

/-- C10.  The nullable and undefinable wrappers round-trip: `unwrap` returns
exactly the wrapped descriptor. -/
theorem nullable_undefindable_unwrap_roundtrip :
    ∀ (m : TypeModel),
      (TypeModel.nullableOf m).unwrapNullable = some m
      ∧ (TypeModel.undefindableOf m).unwrapUndefindable = some m :=
  fun _ => ⟨rfl, rfl⟩

/-- C3.  A (non-exact) struct descriptor accepts a candidate object exactly
when every declared field is either present with a conforming value or
absent but wrapped in the optional marker; in particular
`structOf({a: string, b: optional(number)})` accepts `{a:"x"}` and rejects
`{}`. -/
theorem struct_test_field_characterization :
    ∀ (fields : FieldList) (props : List (String × Value)),
      ((TypeModel.structOf fields false).test (.objV props) = true ↔
        SpecStructAccepts fields (.objV props))
      ∧ (TypeModel.structOf (.fcons "a" .string (.fcons "b" (.optionalOf .number) .fnil))
          false).test (.objV [("a", .strV "x")]) = true
      ∧ (TypeModel.structOf (.fcons "a" .string (.fcons "b" (.optionalOf .number) .fnil))
          false).test (.objV []) = false := by
  intro fields props
  refine ⟨?_, by decide, by decide⟩
  have h := structFieldsTest_iff fields (.objV props)
  simpa [TypeModel.test, Value.typeofStr, Value.isNull] using h

/-- C4 counterexample.  The claim as stated is false of the source: the
exact-mode key check is the `in` operator on the declaration record, and `in`
traverses the prototype chain, so `structOf({a: string}).exact()` accepts
`{a:"x", toString:1}` although `toString` lies beyond the declared field set
`{a}` (the non-exact test accepts the candidate, so the leak is exact's). -/
theorem struct_exact_proto_key_counterexample :
    (TypeModel.structOf (.fcons "a" .string .fnil) true).test
      (.objV [("a", .strV "x"), ("toString", .numV (.fin 1))]) = true
    ∧ FieldList.hasKey (.fcons "a" .string .fnil) "toString" = false
    ∧ (TypeModel.structOf (.fcons "a" .string .fnil) false).test
      (.objV [("a", .strV "x"), ("toString", .numV (.fin 1))]) = true := by
  refine ⟨by decide, by decide, by decide⟩

/-- C4 amended.  The exact struct variant accepts exactly when the non-exact
variant accepts and every candidate key is `in` the declaration record —
that is, a declared field key or an `Object.prototype` member name, since the
check is the JS `in` operator on a plain object literal.  It is a genuine
key-set membership check, not a count comparison: the last example has as
many keys as the declaration but an undeclared key `c`, so a count comparison
would accept it while `exact` rejects it. -/
theorem struct_exact_keyset_characterization_amended :
    ∀ (fields : FieldList) (v : Value),
      ((TypeModel.structOf fields true).test v = true ↔
        ((TypeModel.structOf fields false).test v = true
          ∧ ∀ k ∈ v.jsKeys, fields.jsInDecl k = true))
      ∧ (∀ (fs : FieldList) (b : Bool),
          (TypeModel.structOf fs b).exactOf = some (.structOf fs true))
      ∧ (TypeModel.structOf (.fcons "a" .string .fnil) true).test
          (.objV [("a", .strV "x"), ("b", .numV (.fin 1))]) = false
      ∧ (TypeModel.structOf (.fcons "a" .string .fnil) false).test
          (.objV [("a", .strV "x"), ("b", .numV (.fin 1))]) = true
      ∧ (TypeModel.structOf (.fcons "a" .string (.fcons "b" (.optionalOf .number) .fnil))
          true).test (.objV [("a", .strV "x"), ("c", .numV (.fin 1))]) = false := by
  intro fields v
  refine ⟨?_, fun _ _ => rfl, by decide, by decide, by decide⟩
  simp [TypeModel.test, Bool.and_eq_true, List.all_eq_true]

/-- C5.  Every refinement layers exactly one extra predicate onto its base:
`Refined.test(x) = base.test(x) && predicate(x)` for the `nonNaN`, `int`,
string `withLength`, string `withPattern` and array `withLength` refinements,
and therefore (stated as the boolean order) acceptance by the refinement
implies acceptance by the base — refinement only narrows the accepted set. -/
theorem refinement_narrows_base :
    ∀ (base : TypeModel) (v : Value),
      ((TypeModel.nonNaN base).test v = (base.test v && !v.isNaNNum)
        ∧ (TypeModel.nonNaN base).test v ≤ base.test v)
      ∧ ((TypeModel.int base).test v = (base.test v && v.isIntegerNum)
        ∧ (TypeModel.int base).test v ≤ base.test v)
      ∧ (∀ (mn mx : JSNum),
          (TypeModel.strLen base mn mx).test v = (base.test v && strLenPred mn mx v)
          ∧ (TypeModel.strLen base mn mx).test v ≤ base.test v)
      ∧ (∀ (src : String) (g : Bool) (li : Nat),
          (TypeModel.strPattern base src g li).test v
            = (base.test v && strPatternPred src g li v)
          ∧ (TypeModel.strPattern base src g li).test v ≤ base.test v)
      ∧ (∀ (mn mx : JSNum),
          (TypeModel.arrLen base mn mx).test v = (base.test v && arrLenPred mn mx v)
          ∧ (TypeModel.arrLen base mn mx).test v ≤ base.test v) := by
  intro base v
  have hb : ∀ (p : Bool), (base.test v && p) ≤ base.test v := by
    intro p
    cases hbase : base.test v <;> simp
  refine ⟨⟨rfl, hb _⟩, ⟨rfl, hb _⟩, ?_, ?_, ?_⟩
  · intro mn mx
    have he : (TypeModel.strLen base mn mx).test v = (base.test v && strLenPred mn mx v) := by
      cases v <;> rfl
    exact ⟨he, by rw [he]; exact hb _⟩
  · intro src g li
    have he : (TypeModel.strPattern base src g li).test v
        = (base.test v && strPatternPred src g li v) := by
      cases v <;> rfl
    exact ⟨he, by rw [he]; exact hb _⟩
  · intro mn mx
    have he : (TypeModel.arrLen base mn mx).test v = (base.test v && arrLenPred mn mx v) := by
      cases v <;> rfl
    exact ⟨he, by rw [he]; exact hb _⟩

/-- C6.  `withLength` validates its range eagerly at construction: with both
bounds given it throws exactly when `min > max` or `min < 0`; absent bounds
default to 0 and Infinity (under which the range is always valid and the
refinement is built).  A successfully built refinement accepts exactly the
base-accepted values whose length lies within the range, as the concrete
`arrayOf(string).withLength({min:1, max:3})` examples show.  `test` itself is
a total boolean function, so no range error can surface at validation time. -/
theorem withLength_eager_validation_and_range_semantics :
    ∀ (base : TypeModel) (mn mx : ℚ),
      ((∃ e, base.withLengthStr ⟨some (.fin mn), some (.fin mx)⟩ = .error e)
        ↔ (mx < mn ∨ mn < 0))
      ∧ ((∃ e, base.withLengthArr ⟨some (.fin mn), some (.fin mx)⟩ = .error e)
        ↔ (mx < mn ∨ mn < 0))
      ∧ (base.withLengthStr ⟨none, none⟩ = .ok (.strLen base (.fin 0) .posInf))
      ∧ (base.withLengthArr ⟨none, none⟩ = .ok (.arrLen base (.fin 0) .posInf))
      ∧ (∀ m, base.withLengthArr ⟨some (.fin mn), some (.fin mx)⟩ = .ok m →
          ∀ (vs : List Value),
            m.test (.arrV vs) = (base.test (.arrV vs)
              && (decide (mn ≤ (vs.length : ℚ)) && decide ((vs.length : ℚ) ≤ mx))))
      ∧ (∀ m, base.withLengthStr ⟨some (.fin mn), some (.fin mx)⟩ = .ok m →
          ∀ (s : String),
            m.test (.strV s) = (base.test (.strV s)
              && (decide (mn ≤ (s.length : ℚ)) && decide ((s.length : ℚ) ≤ mx))))
      ∧ ((TypeModel.arrayOf .string).withLengthArr ⟨some (.fin 1), some (.fin 3)⟩
          = .ok (.arrLen (.arrayOf .string) (.fin 1) (.fin 3)))
      ∧ ((TypeModel.arrLen (.arrayOf .string) (.fin 1) (.fin 3)).test
          (.arrV [.strV "a", .strV "b"]) = true)
      ∧ ((TypeModel.arrLen (.arrayOf .string) (.fin 1) (.fin 3)).test (.arrV []) = false)
      ∧ ((TypeModel.arrLen (.arrayOf .string) (.fin 1) (.fin 3)).test
          (.arrV [.strV "a", .strV "b", .strV "c", .strV "d"]) = false) := by
  intro base mn mx
  refine ⟨?_, ?_, ?_, ?_, ?_, ?_, rfl, by decide, by decide, by decide⟩
  · simp [TypeModel.withLengthStr, JSNum.jsGt, JSNum.jsLt]
    split <;> rename_i hcond <;> simp_all
  · simp [TypeModel.withLengthArr, JSNum.jsGt, JSNum.jsLt]
    split <;> rename_i hcond <;> simp_all
  · rfl
  · rfl
  · intro m hm vs
    unfold TypeModel.withLengthArr at hm
    simp [JSNum.jsGt, JSNum.jsLt] at hm
    split at hm
    · exact absurd hm (by simp)
    · have hmeq : m = .arrLen base (.fin mn) (.fin mx) := by
        injection hm with h
        exact h.symm
      subst hmeq
      simp [TypeModel.test, JSNum.jsLe]
  · intro m hm s
    unfold TypeModel.withLengthStr at hm
    simp [JSNum.jsGt, JSNum.jsLt] at hm
    split at hm
    · exact absurd hm (by simp)
    · have hmeq : m = .strLen base (.fin mn) (.fin mx) := by
        injection hm with h
        exact h.symm
      subst hmeq
      simp [TypeModel.test, JSNum.jsLe]

/-- Witness for C6: the inversion clauses applied to a concretely built
length refinement, with the construction hypothesis discharged by
computation. -/
theorem withLength_range_semantics_witness :
    (TypeModel.arrLen (.arrayOf .string) (.fin 1) (.fin 3)).test (.arrV [.strV "a"])
      = ((TypeModel.arrayOf .string).test (.arrV [.strV "a"])
          && (decide ((1:ℚ) ≤ (([Value.strV "a"].length : ℚ)))
            && decide ((([Value.strV "a"].length : ℚ)) ≤ 3))) :=
  ((withLength_eager_validation_and_range_semantics (.arrayOf .string) 1 3).2.2.2.2.1
    (.arrLen (.arrayOf .string) (.fin 1) (.fin 3)) rfl [.strV "a"])

/-- C9.  `RecordModel.test` enumerates `Object.entries`, whose keys are
always strings, so a record keyed by the `number` descriptor accepts a
typeof-object non-null candidate exactly when it has no own enumerable
entries at all. -/
theorem record_number_keys_accepts_only_empty :
    ∀ (vM : TypeModel) (v : Value),
      (TypeModel.recordOf .number vM).test v = true ↔
        (v.typeofStr = "object" ∧ v.isNull = false ∧ v.jsEntries = []) := by
  intro vM v
  have hnum : ∀ (k : String), TypeModel.number.test (.strV k) = false := fun _ => rfl
  cases v with
  | objV props =>
      cases props with
      | nil => simp [TypeModel.test, Value.typeofStr, Value.isNull, Value.jsEntries]
      | cons p ps =>
          simp [TypeModel.test, Value.typeofStr, Value.isNull, Value.jsEntries, hnum]
  | arrV vs =>
      cases vs with
      | nil => simp [TypeModel.test, Value.typeofStr, Value.isNull, Value.jsEntries]
      | cons e es =>
          simp [TypeModel.test, Value.typeofStr, Value.isNull, Value.jsEntries, hnum,
            List.enum_cons]
  | _ => simp [TypeModel.test, Value.typeofStr, Value.isNull, Value.jsEntries]
